import Mathlib

/-!
# Geo-buckets: verification of the location-normalization and geo-bucket core

Shallow embedding of `src/services/location_service.py` (together with the
data model of `src/models.py` and the configuration of `src/config.py`).

Modelling conventions:
* Python strings are lists of Unicode code points (`List Nat`).  The Python
  text primitives (`str.lower`, `str.strip`, `str.split`, `re.sub` with the
  classes `\w`/`\s`) are modelled on their ASCII fragment, which is the
  fragment exercised by the repository's data and tests.
* Python floats are modelled as exact rationals (`ℚ`); `round` is Python's
  round-half-to-even, `"%.3f"` formatting rounds half-to-even at three
  decimals.
* The SQLAlchemy session is modelled as an explicit store value (a list of
  bucket rows and a list of property rows plus primary-key counters); each
  service function becomes a state-passing function.
-/

namespace GeoBuckets

/-- Python strings, modelled as lists of Unicode code points. -/
abbrev Str := List Nat

/-- Code points of a Lean string literal, used to write concrete inputs. -/
def str (s : String) : Str := s.data.map Char.toNat

/-- ASCII whitespace, the fragment of Python's `\s` / `str.split()` /
`str.strip()` whitespace exercised here: space, tab, LF, VT, FF, CR. -/
def isSpaceChar (c : Nat) : Bool :=
  c == 32 || c == 9 || c == 10 || c == 11 || c == 12 || c == 13

/-- ASCII fragment of Python's regex class `\w`: letters, digits and the
underscore. -/
def isWordChar (c : Nat) : Bool :=
  (97 ≤ c && c ≤ 122) || (65 ≤ c && c ≤ 90) || (48 ≤ c && c ≤ 57) || c == 95

/-- ASCII fragment of `str.lower` on a single code point. -/
def lowerChar (c : Nat) : Nat := if 65 ≤ c && c ≤ 90 then c + 32 else c

/-- `name.lower()` (ASCII fragment). -/
def pyLower (l : Str) : Str := l.map lowerChar

/-- `name.strip()`: drop leading and trailing whitespace. -/
def pyStrip (l : Str) : Str :=
  ((l.dropWhile isSpaceChar).reverse.dropWhile isSpaceChar).reverse

/-- `re.sub(r'[^\w\s]', ' ', name)`: every character that is neither a word
character nor whitespace becomes a single space. -/
def pySub (l : Str) : Str :=
  l.map fun c => if !isWordChar c && !isSpaceChar c then 32 else c

/-- `name.split()` with no argument: split on whitespace runs, discarding
empty chunks. -/
def pySplit (l : Str) : List Str := (l.splitOnP isSpaceChar).filter (· ≠ [])

/-- `Settings.LOCATION_STOP_WORDS` (src/config.py). -/
def LOCATION_STOP_WORDS : List Str :=
  [str "lagos", str "nigeria", str "state", str "lga", str "area", str "estate"]

/-- Steps 1–3 of `normalize_location`: lowercase and strip, replace special
characters, split into tokens. -/
def rawTokens (name : Str) : List Str := pySplit (pySub (pyStrip (pyLower name)))

/-- Step 4 of `normalize_location`: remove stop words. -/
def keptTokens (name : Str) : List Str :=
  (rawTokens name).filter fun t => decide (t ∉ LOCATION_STOP_WORDS)

/-- Step 5 of `normalize_location`: `sorted(set(tokens))` — deduplicate and
sort lexicographically. -/
def sortedTokens (name : Str) : List Str := (keptTokens name).dedup.mergeSort

/-- `normalize_location` (src/services/location_service.py, lines 12–36). -/
def normalize_location (name : Str) : Str := List.intercalate [32] (sortedTokens name)

/-- `Settings.GEO_BUCKET_GRID_SIZE` (src/config.py): 0.005 degrees. -/
def GEO_BUCKET_GRID_SIZE : ℚ := 5 / 1000

/-- Python's built-in `round` to an integer: nearest, ties to even. -/
def pyRound (q : ℚ) : ℤ :=
  let f := ⌊q⌋
  let r := q - f
  if r < 1/2 then f
  else if 1/2 < r then f + 1
  else if 2 ∣ f then f else f + 1

/-- Decimal digits of a natural number, most significant first. -/
def natDigits (n : Nat) : Str := (Nat.toDigits 10 n).map Char.toNat

/-- Python `f"{x:.3f}"`: fixed-point with exactly three decimals, rounding
half-to-even (46 is the code point of the dot, 45 of the minus sign). -/
def format3 (q : ℚ) : Str :=
  let m := pyRound (q * 1000)
  let sign : Str := if m < 0 then [45] else []
  let a := m.natAbs
  sign ++ natDigits (a / 1000) ++ [46] ++ (natDigits (a % 1000 + 1000)).drop 1

/-- `compute_bucket_key` (src/services/location_service.py, lines 39–54);
95 is the code point of the underscore. -/
def compute_bucket_key (lat lng : ℚ) : Str × ℚ × ℚ :=
  let grid_size := GEO_BUCKET_GRID_SIZE
  let bucket_lat := pyRound (lat / grid_size) * grid_size
  let bucket_lng := pyRound (lng / grid_size) * grid_size
  (format3 bucket_lat ++ [95] ++ format3 bucket_lng, bucket_lat, bucket_lng)

/-! ## Data model (src/models.py) and the store -/

/-- Row of the `geo_buckets` table (src/models.py, class GeoBucket). -/
structure GeoBucket where
  id : Nat
  bucket_key : Str
  canonical_name : Str
  centroid_lat : ℚ
  centroid_lng : ℚ
  aliases : List Str
  property_count : Nat
deriving DecidableEq, Repr

/-- Row of the `properties` table (src/models.py, class Property);
`created_at` is an abstract timestamp. -/
structure Property where
  id : Nat
  geo_bucket_id : Nat
  title : Str
  location_name : Str
  lat : ℚ
  lng : ℚ
  price : ℚ
  bedrooms : Nat
  bathrooms : Nat
  created_at : Nat
deriving DecidableEq, Repr

/-- The database session: both tables plus the primary-key counters. -/
structure Store where
  buckets : List GeoBucket
  props : List Property
  nextBucketId : Nat
  nextPropId : Nat
deriving DecidableEq, Repr

def emptyStore : Store := ⟨[], [], 1, 1⟩

/-! ## Services (src/services/location_service.py) -/

/-- `get_or_create_bucket` (lines 57–96): look the bucket up by grid key;
if found, append the normalized name to its aliases when non-empty and new;
otherwise insert a fresh bucket row. -/
def get_or_create_bucket (db : Store) (lat lng : ℚ) (location_name : Str) :
    GeoBucket × Store :=
  let bk := compute_bucket_key lat lng
  let normalized_name := normalize_location location_name
  match db.buckets.find? (fun b => decide (b.bucket_key = bk.1)) with
  | some bucket =>
      if normalized_name ≠ [] ∧ normalized_name ∉ bucket.aliases then
        let updated := { bucket with aliases := bucket.aliases ++ [normalized_name] }
        (updated,
         { db with buckets := db.buckets.map fun b => if b.id = bucket.id then updated else b })
      else
        (bucket, db)
  | none =>
      let bucket : GeoBucket :=
        { id := db.nextBucketId
          bucket_key := bk.1
          canonical_name := if normalized_name = [] then str "unknown" else normalized_name
          centroid_lat := bk.2.1
          centroid_lng := bk.2.2
          aliases := if normalized_name = [] then [] else [normalized_name]
          property_count := 0 }
      (bucket, { db with buckets := db.buckets ++ [bucket],
                         nextBucketId := db.nextBucketId + 1 })

/-- The per-bucket test of `find_buckets_by_location` (lines 116–136): the
loop body's `continue`-chain — exact canonical-name match, alias membership,
then substring match against the canonical name or any alias. -/
def matchesQuery (normalized_query : Str) (bucket : GeoBucket) : Bool :=
  if pyLower bucket.canonical_name = normalized_query then true
  else if normalized_query ∈ bucket.aliases then true
  else if normalized_query <:+: pyLower bucket.canonical_name then true
  else bucket.aliases.any fun a => decide (normalized_query <:+: a)

/-- `find_buckets_by_location` (lines 99–138). -/
def find_buckets_by_location (db : Store) (location_query : Str) : List GeoBucket :=
  let normalized_query := normalize_location location_query
  if normalized_query = [] then []
  else db.buckets.filter (matchesQuery normalized_query)

/-- `search_properties_by_location` (lines 141–165): the `ORDER BY
created_at DESC` query is modelled as a stable sort of the filtered rows. -/
def search_properties_by_location (db : Store) (location_query : Str) :
    List Property × Option GeoBucket :=
  let buckets := find_buckets_by_location db location_query
  if buckets = [] then ([], none)
  else
    let bucket_ids : List Nat := buckets.map (·.id)
    let properties :=
      (db.props.filter fun p => decide (p.geo_bucket_id ∈ bucket_ids)).mergeSort
        fun a b => b.created_at ≤ a.created_at
    (properties, buckets.head?)

/-- `create_property` (lines 168–203): get or create the bucket, insert the
property row, increment the bucket's denormalized count; the final commit
makes both visible at once. -/
def create_property (db : Store) (title location_name : Str) (lat lng price : ℚ)
    (bedrooms bathrooms : Nat) (now : Nat) : Property × Store :=
  let r := get_or_create_bucket db lat lng location_name
  let bucket := r.1
  let db1 := r.2
  let property_obj : Property :=
    { id := db1.nextPropId
      geo_bucket_id := bucket.id
      title := title
      location_name := location_name
      lat := lat
      lng := lng
      price := price
      bedrooms := bedrooms
      bathrooms := bathrooms
      created_at := now }
  let bucket2 := { bucket with property_count := bucket.property_count + 1 }
  (property_obj,
   { db1 with
       props := db1.props ++ [property_obj]
       nextPropId := db1.nextPropId + 1
       buckets := db1.buckets.map fun b => if b.id = bucket.id then bucket2 else b })

/-! ## Further definitions used by the claims -/

/-- Letter-or-digit character class, as the words of claim C6 describe it
(ASCII letters and digits, without the underscore). -/
def isLetterOrDigit (c : Nat) : Bool :=
  (97 ≤ c && c ≤ 122) || (65 ≤ c && c ≤ 90) || (48 ≤ c && c ≤ 57)

/-- Matching predicate in the words of claim C2: (1) the lowercased
canonical name equals the normalized query, or (2) the normalized query is
an element of the aliases, or (3) the normalized query is a substring of the
lowercased canonical name or of some alias. -/
def specMatches (q : Str) (b : GeoBucket) : Prop :=
  pyLower b.canonical_name = q ∨ q ∈ b.aliases ∨
    q <:+: pyLower b.canonical_name ∨ ∃ a ∈ b.aliases, q <:+: a

instance (q : Str) (b : GeoBucket) : Decidable (specMatches q b) := by
  unfold specMatches; infer_instance

/-- A create-listing request (the arguments of `create_property`). -/
structure CreateReq where
  title : Str
  location_name : Str
  lat : ℚ
  lng : ℚ
  price : ℚ
  bedrooms : Nat
  bathrooms : Nat
  now : Nat
deriving DecidableEq, Repr

/-- The state change of one `create_property` call. -/
def applyCreate (db : Store) (r : CreateReq) : Store :=
  (create_property db r.title r.location_name r.lat r.lng r.price r.bedrooms r.bathrooms r.now).2

/-- A sequence of create-listing operations. -/
def foldCreates (db : Store) (rs : List CreateReq) : Store := rs.foldl applyCreate db

/-- The spec's counter invariant: every bucket's denormalized
`property_count` equals the number of property rows referencing it. -/
def countsOk (db : Store) : Prop :=
  ∀ b ∈ db.buckets, b.property_count =
    (db.props.filter fun p => decide (p.geo_bucket_id = b.id)).length

/-- Well-formedness of the store: distinct bucket primary keys, all ids
below the primary-key counter, and the counter invariant. -/
def WF (db : Store) : Prop :=
  (db.buckets.map (fun b => b.id)).Nodup ∧
  (∀ b ∈ db.buckets, b.id < db.nextBucketId) ∧
  (∀ p ∈ db.props, p.geo_bucket_id < db.nextBucketId) ∧
  countsOk db

instance (db : Store) : Decidable (countsOk db) := by
  unfold countsOk; infer_instance

instance (db : Store) : Decidable (WF db) := by
  unfold WF; infer_instance

instance {ε α : Type} [DecidableEq ε] [DecidableEq α] (a b : Except ε α) :
    Decidable (a = b) := by
  cases a <;> cases b
  · rename_i e1 e2
    exact decidable_of_iff (e1 = e2) (by simp)
  · exact isFalse fun h => Except.noConfusion h
  · exact isFalse fun h => Except.noConfusion h
  · rename_i a1 a2
    exact decidable_of_iff (a1 = a2) (by simp)

/-- Commit of an INSERT of a new bucket row: the unique constraint on
`bucket_key` (src/models.py line 24) makes the commit fail with an
IntegrityError when a row with the same key exists at commit time. -/
def insertBucket (db : Store) (b : GeoBucket) : Except Unit Store :=
  if db.buckets.any fun b0 => decide (b0.bucket_key = b.bucket_key) then .error ()
  else .ok { db with buckets := db.buckets ++ [b], nextBucketId := db.nextBucketId + 1 }

/-- `get_or_create_bucket` as executed under a creation race: the initial
SELECT reads the snapshot `dbS`, while the final commit applies to the
commit-time state `dbC` (a concurrent writer may have inserted the same
bucket key in between).  The code has no exception handler around the
insert, so a unique-key conflict propagates to the caller. -/
def get_or_create_bucket_race (dbS dbC : Store) (lat lng : ℚ) (location_name : Str) :
    Except Unit (GeoBucket × Store) :=
  let bk := compute_bucket_key lat lng
  let normalized_name := normalize_location location_name
  match dbS.buckets.find? (fun b => decide (b.bucket_key = bk.1)) with
  | some bucket =>
      if normalized_name ≠ [] ∧ normalized_name ∉ bucket.aliases then
        let updated := { bucket with aliases := bucket.aliases ++ [normalized_name] }
        .ok (updated,
          { dbC with buckets := dbC.buckets.map fun b => if b.id = bucket.id then updated else b })
      else
        .ok (bucket, dbC)
  | none =>
      let bucket : GeoBucket :=
        { id := dbC.nextBucketId
          bucket_key := bk.1
          canonical_name := if normalized_name = [] then str "unknown" else normalized_name
          centroid_lat := bk.2.1
          centroid_lng := bk.2.2
          aliases := if normalized_name = [] then [] else [normalized_name]
          property_count := 0 }
      (insertBucket dbC bucket).map fun db2 => (bucket, db2)

/-! ## Concrete sample data for witnesses -/

/-- Sample bucket row covering the grid cell of (6.4698, 3.6285). -/
def sampleBucket : GeoBucket :=
  { id := 1
    bucket_key := str "6.470_3.630"
    canonical_name := str "ajah"
    centroid_lat := 647/100
    centroid_lng := 363/100
    aliases := [str "ajah"]
    property_count := 2 }

def sampleProp1 : Property :=
  { id := 1, geo_bucket_id := 1, title := str "Flat", location_name := str "Ajah"
    lat := 64698/10000, lng := 36285/10000, price := 100, bedrooms := 2, bathrooms := 1
    created_at := 3 }

def sampleProp2 : Property :=
  { id := 2, geo_bucket_id := 1, title := str "House", location_name := str "Ajah"
    lat := 64705/10000, lng := 36290/10000, price := 200, bedrooms := 3, bathrooms := 2
    created_at := 7 }

/-- Sample store with one bucket and two properties. -/
def sampleStore : Store := ⟨[sampleBucket], [sampleProp1, sampleProp2], 2, 3⟩

/-- Sample store with one (empty) bucket and no properties. -/
def sampleStoreNoProps : Store :=
  ⟨[{ sampleBucket with property_count := 0 }], [], 2, 1⟩

/-- A sample create-listing request mapping to cell `6.470_3.630`. -/
def sampleReq : CreateReq :=
  { title := str "Flat", location_name := str "Sangotedo"
    lat := 64698/10000, lng := 36285/10000, price := 100
    bedrooms := 2, bathrooms := 1, now := 3 }

/-! ## Shape of the normalizer's output -/

theorem lowerChar_idem (c : Nat) : lowerChar (lowerChar c) = lowerChar c := by
  simp only [lowerChar, Bool.and_eq_true, decide_eq_true_eq]
  by_cases h : 65 ≤ c ∧ c ≤ 90
  · rw [if_pos h, if_neg (show ¬(65 ≤ c + 32 ∧ c + 32 ≤ 90) by omega)]
  · rw [if_neg h, if_neg h]

theorem splitOnP_chars {p : Nat → Bool} (l : Str) :
    ∀ t ∈ l.splitOnP p, ∀ c ∈ t, p c = false ∧ c ∈ l := by
  induction l with
  | nil =>
    intro t ht c hc
    rw [List.splitOnP_nil, List.mem_singleton] at ht
    subst ht
    simp at hc
  | cons x xs ih =>
    intro t ht c hc
    rw [List.splitOnP_cons] at ht
    split at ht
    · rcases List.mem_cons.mp ht with h | h
      · subst h; simp at hc
      · obtain ⟨h1, h2⟩ := ih t h c hc
        exact ⟨h1, List.mem_cons_of_mem _ h2⟩
    · next hx =>
      rcases hsp : xs.splitOnP p with _ | ⟨hd, tl⟩
      · exact absurd hsp (List.splitOnP_ne_nil p xs)
      · rw [hsp] at ht
        simp only [List.modifyHead] at ht
        rcases List.mem_cons.mp ht with h | h
        · subst h
          rcases List.mem_cons.mp hc with h2 | h2
          · subst h2
            exact ⟨Bool.not_eq_true _ |>.mp hx, List.mem_cons_self _ _⟩
          · obtain ⟨h1, h2⟩ := ih hd (hsp ▸ List.mem_cons_self hd tl) c h2
            exact ⟨h1, List.mem_cons_of_mem _ h2⟩
        · obtain ⟨h1, h2⟩ := ih t (hsp ▸ List.mem_cons_of_mem hd h) c hc
          exact ⟨h1, List.mem_cons_of_mem _ h2⟩

theorem pySplit_tokens {l : Str} :
    ∀ t ∈ pySplit l, t ≠ [] ∧ ∀ c ∈ t, isSpaceChar c = false ∧ c ∈ l := by
  intro t ht
  rw [pySplit, List.mem_filter] at ht
  exact ⟨by simpa using ht.2, fun c hc => splitOnP_chars l t ht.1 c hc⟩

theorem pySub_chars {l : Str} {c : Nat} (h : c ∈ pySub l) (hs : isSpaceChar c = false) :
    isWordChar c = true ∧ c ∈ l := by
  rw [pySub, List.mem_map] at h
  obtain ⟨c0, hc0, rfl⟩ := h
  by_cases hb : (!isWordChar c0 && !isSpaceChar c0) = true
  · rw [if_pos hb] at hs
    simp [isSpaceChar] at hs
  · rw [if_neg hb] at hs ⊢
    cases hw : isWordChar c0 with
    | true => exact ⟨rfl, hc0⟩
    | false => exact absurd (by rw [hw, hs]; rfl) hb

theorem pyLower_chars {l : Str} {c : Nat} (h : c ∈ pyLower l) : lowerChar c = c := by
  rw [pyLower, List.mem_map] at h
  obtain ⟨c0, _, rfl⟩ := h
  exact lowerChar_idem c0

theorem pyStrip_subset {l : Str} : pyStrip l ⊆ l := by
  intro c hc
  rw [pyStrip, List.mem_reverse] at hc
  have h1 := (List.dropWhile_sublist _).subset hc
  rw [List.mem_reverse] at h1
  exact (List.dropWhile_sublist _).subset h1

/-- Every token produced by steps 1–3 of the normalizer is non-empty and
consists of lowercase-stable word characters. -/
theorem rawTokens_clean (name : Str) :
    ∀ t ∈ rawTokens name, t ≠ [] ∧
      ∀ c ∈ t, isWordChar c = true ∧ lowerChar c = c ∧ isSpaceChar c = false := by
  intro t ht
  obtain ⟨hne, hchar⟩ := pySplit_tokens t ht
  refine ⟨hne, fun c hc => ?_⟩
  obtain ⟨hsp, hmem⟩ := hchar c hc
  obtain ⟨hw, hmem2⟩ := pySub_chars hmem hsp
  exact ⟨hw, pyLower_chars (pyStrip_subset hmem2), hsp⟩

theorem mem_sortedTokens {name : Str} {t : Str} (h : t ∈ sortedTokens name) :
    t ∈ rawTokens name ∧ t ∉ LOCATION_STOP_WORDS := by
  rw [sortedTokens] at h
  rw [(List.mergeSort_perm _ _).mem_iff, List.mem_dedup, keptTokens, List.mem_filter] at h
  exact ⟨h.1, by simpa using h.2⟩

theorem sortedTokens_clean (name : Str) :
    ∀ t ∈ sortedTokens name, t ≠ [] ∧
      ∀ c ∈ t, isWordChar c = true ∧ lowerChar c = c ∧ isSpaceChar c = false :=
  fun t ht => rawTokens_clean name t (mem_sortedTokens ht).1

/-! ## Reconstruction: the normalizer is the identity on its own output -/

theorem intercalate_cons_cons (s a b : Str) (l : List Str) :
    List.intercalate s (a :: b :: l) = a ++ s ++ List.intercalate s (b :: l) := by
  rw [List.intercalate, List.intercalate, List.intersperse_cons_cons,
    List.flatten_cons, List.flatten_cons, List.append_assoc]

theorem intercalate_single (s a : Str) : List.intercalate s [a] = a := by
  simp [List.intercalate]

theorem dropWhile_eq_self_of_all {p : Nat → Bool} {l : Str} (h : ∀ c ∈ l, p c = false) :
    l.dropWhile p = l := by
  cases l with
  | nil => rfl
  | cons x xs =>
    rw [List.dropWhile_cons, if_neg]
    simp [h x (List.mem_cons_self x xs)]

theorem head_not_p_of_dropWhile_eq_self {p : Nat → Bool} {x : Nat} {xs : Str}
    (h : (x :: xs).dropWhile p = x :: xs) : p x = false := by
  by_contra hx
  rw [List.dropWhile_cons, if_pos (Bool.not_eq_false _ |>.mp hx)] at h
  have hs : List.Sublist (List.dropWhile p xs) xs := List.dropWhile_sublist _
  rw [h] at hs
  have := hs.length_le
  simp only [List.length_cons] at this
  omega

theorem dropWhile_append_eq_self {p : Nat → Bool} {x : Nat} {xs r : Str}
    (hx : p x = false) : ((x :: xs) ++ r).dropWhile p = (x :: xs) ++ r := by
  rw [List.cons_append, List.dropWhile_cons, if_neg (by simp [hx])]

/-- The joined output has no leading whitespace. -/
theorem intercalate_dropWhile (ts : List Str)
    (h : ∀ t ∈ ts, t ≠ [] ∧ ∀ c ∈ t, isSpaceChar c = false) :
    (List.intercalate [32] ts).dropWhile isSpaceChar = List.intercalate [32] ts := by
  match ts with
  | [] => rfl
  | t :: rest =>
    obtain ⟨hne, hch⟩ := h t (List.mem_cons_self _ _)
    match t, hne with
    | c :: cs, _ =>
      have hc : isSpaceChar c = false := hch c (List.mem_cons_self _ _)
      match rest with
      | [] => rw [intercalate_single, List.dropWhile_cons, if_neg (by simp [hc])]
      | b :: l => rw [intercalate_cons_cons, List.append_assoc, dropWhile_append_eq_self hc]

theorem intercalate_ne_nil_of_head {t : Str} (hne : t ≠ []) (rest : List Str) :
    List.intercalate [32] (t :: rest) ≠ [] := by
  match rest with
  | [] => rw [intercalate_single]; exact hne
  | b :: l =>
    rw [intercalate_cons_cons]
    match t, hne with
    | c :: cs, _ => simp

/-- The joined output has no trailing whitespace. -/
theorem intercalate_reverse_dropWhile (ts : List Str)
    (h : ∀ t ∈ ts, t ≠ [] ∧ ∀ c ∈ t, isSpaceChar c = false) :
    (List.intercalate [32] ts).reverse.dropWhile isSpaceChar =
      (List.intercalate [32] ts).reverse := by
  match ts with
  | [] => rfl
  | [t] =>
    rw [intercalate_single]
    exact dropWhile_eq_self_of_all fun c hc =>
      (h t (List.mem_cons_self _ _)).2 c (List.mem_reverse.mp hc)
  | a :: b :: l =>
    have ih := intercalate_reverse_dropWhile (b :: l)
      (fun t ht => h t (List.mem_cons_of_mem a ht))
    rw [intercalate_cons_cons, List.append_assoc, List.reverse_append]
    rcases hI : (List.intercalate [32] (b :: l)).reverse with _ | ⟨x, xs⟩
    · exfalso
      obtain ⟨hbne, _⟩ := h b (List.mem_cons_of_mem a (List.mem_cons_self _ _))
      have hnil : List.intercalate [32] (b :: l) = [] := by
        simpa using congrArg List.reverse hI
      exact intercalate_ne_nil_of_head hbne l hnil
    · rw [hI] at ih
      have hx : isSpaceChar x = false := head_not_p_of_dropWhile_eq_self ih
      rw [List.reverse_append, hI]
      simp only [List.reverse_cons, List.reverse_nil, List.nil_append, List.cons_append,
        List.append_assoc]
      rw [List.dropWhile_cons, if_neg (by simp [hx])]

theorem mem_intercalate_32 {ts : List Str} {c : Nat}
    (h : c ∈ List.intercalate [32] ts) : c = 32 ∨ ∃ t ∈ ts, c ∈ t := by
  match ts with
  | [] => simp [List.intercalate] at h
  | [t] => rw [intercalate_single] at h; exact .inr ⟨t, List.mem_cons_self _ _, h⟩
  | a :: b :: l =>
    rw [intercalate_cons_cons, List.append_assoc] at h
    rcases List.mem_append.mp h with h1 | h1
    · exact .inr ⟨a, List.mem_cons_self _ _, h1⟩
    · rcases List.mem_append.mp h1 with h2 | h2
      · left; simpa using h2
      · rcases mem_intercalate_32 h2 with h3 | ⟨t, ht, hc⟩
        · exact .inl h3
        · exact .inr ⟨t, List.mem_cons_of_mem a ht, hc⟩

theorem pySplit_intercalate (ts : List Str)
    (h : ∀ t ∈ ts, t ≠ [] ∧ ∀ c ∈ t, isSpaceChar c = false) :
    pySplit (List.intercalate [32] ts) = ts := by
  match ts with
  | [] => rfl
  | [t] =>
    obtain ⟨hne, hch⟩ := h t (List.mem_cons_self _ _)
    rw [intercalate_single, pySplit,
      List.splitOnP_eq_single _ _ (fun x hx => by simp [hch x hx]),
      List.filter_cons, if_pos (by simpa using hne), List.filter_nil]
  | a :: b :: l =>
    obtain ⟨hane, hach⟩ := h a (List.mem_cons_self _ _)
    have ih := pySplit_intercalate (b :: l) (fun t ht => h t (List.mem_cons_of_mem a ht))
    rw [intercalate_cons_cons, List.append_assoc, List.singleton_append, pySplit,
      List.splitOnP_first _ _ (fun x hx => by simp [hach x hx]) 32 (by rfl) _,
      List.filter_cons, if_pos (by simpa using hane)]
    rw [pySplit] at ih
    rw [ih]

/-- Every character of the normalizer's output is a space or a
lowercase-stable word character. -/
theorem normalize_location_chars {name : Str} {c : Nat}
    (h : c ∈ normalize_location name) :
    c = 32 ∨ (isWordChar c = true ∧ lowerChar c = c ∧ isSpaceChar c = false) := by
  rcases mem_intercalate_32 h with h1 | ⟨t, ht, hc⟩
  · exact .inl h1
  · exact .inr ((sortedTokens_clean name t ht).2 c hc)

theorem pyLower_normalize (name : Str) :
    pyLower (normalize_location name) = normalize_location name := by
  rw [pyLower]
  have he : (normalize_location name).map lowerChar = (normalize_location name).map id :=
    List.map_congr_left fun c hc => by
      rcases normalize_location_chars hc with rfl | ⟨_, h2, _⟩
      · rfl
      · exact h2
  rw [he, List.map_id]

theorem pyStrip_normalize (name : Str) :
    pyStrip (normalize_location name) = normalize_location name := by
  have hclean : ∀ t ∈ sortedTokens name, t ≠ [] ∧ ∀ c ∈ t, isSpaceChar c = false :=
    fun t ht => ⟨(sortedTokens_clean name t ht).1,
      fun c hc => ((sortedTokens_clean name t ht).2 c hc).2.2⟩
  rw [pyStrip, normalize_location, intercalate_dropWhile _ hclean,
    intercalate_reverse_dropWhile _ hclean, List.reverse_reverse]

theorem pySub_normalize (name : Str) :
    pySub (normalize_location name) = normalize_location name := by
  rw [pySub]
  have he : (normalize_location name).map
      (fun c => if !isWordChar c && !isSpaceChar c then 32 else c) =
      (normalize_location name).map id :=
    List.map_congr_left fun c hc => by
      rcases normalize_location_chars hc with rfl | ⟨h1, _, _⟩
      · rfl
      · simp [h1]
  rw [he, List.map_id]

theorem pySplit_normalize (name : Str) :
    pySplit (normalize_location name) = sortedTokens name := by
  rw [normalize_location]
  exact pySplit_intercalate _ fun t ht => ⟨(sortedTokens_clean name t ht).1,
    fun c hc => ((sortedTokens_clean name t ht).2 c hc).2.2⟩

theorem rawTokens_normalize (name : Str) :
    rawTokens (normalize_location name) = sortedTokens name := by
  rw [rawTokens, pyLower_normalize, pyStrip_normalize, pySub_normalize, pySplit_normalize]

theorem sortedTokens_nodup (name : Str) : (sortedTokens name).Nodup :=
  (List.mergeSort_perm _ _).symm.nodup (List.nodup_dedup _)

theorem sortedTokens_sorted (name : Str) : List.Sorted (· ≤ ·) (sortedTokens name) :=
  List.sorted_mergeSort' _

theorem sortedTokens_normalize (name : Str) :
    sortedTokens (normalize_location name) = sortedTokens name := by
  rw [sortedTokens, keptTokens, rawTokens_normalize]
  rw [List.filter_eq_self.mpr (fun t ht => by
    simpa using (mem_sortedTokens ht).2)]
  rw [List.dedup_eq_self.mpr (sortedTokens_nodup name)]
  exact List.mergeSort_eq_self (sortedTokens_sorted name)

/-! ## Claims C4, C5, C6: properties of the normalizer -/

/-- C4: `normalize` is idempotent: for every string `s`,
`normalize(normalize(s)) == normalize(s)`. -/
theorem normalize_location_idempotent (s : Str) :
    normalize_location (normalize_location s) = normalize_location s := by
  show List.intercalate [32] (sortedTokens (normalize_location s)) = normalize_location s
  rw [sortedTokens_normalize]
  rfl

/-- C5: `normalize` is order-invariant: two strings whose token lists (after
lowercasing, trimming, special-character replacement and splitting) are
permutations of each other normalize identically. -/
theorem normalize_location_order_invariant (s1 s2 : Str)
    (h : (rawTokens s1).Perm (rawTokens s2)) :
    normalize_location s1 = normalize_location s2 := by
  have hk : (keptTokens s1).Perm (keptTokens s2) := h.filter _
  have hd : (keptTokens s1).dedup.Perm (keptTokens s2).dedup := hk.dedup
  have hs : sortedTokens s1 = sortedTokens s2 :=
    List.eq_of_perm_of_sorted
      ((List.mergeSort_perm _ _).trans (hd.trans (List.mergeSort_perm _ _).symm))
      (sortedTokens_sorted s1) (sortedTokens_sorted s2)
  rw [normalize_location, normalize_location, hs]

theorem normalize_location_order_invariant_witness :
    (rawTokens (str "Sangotedo, Ajah")).Perm (rawTokens (str "Ajah Sangotedo")) ∧
    normalize_location (str "Sangotedo, Ajah") = normalize_location (str "Ajah Sangotedo") :=
  ⟨by decide, normalize_location_order_invariant _ _ (by decide)⟩

unseal List.merge List.mergeSort in
/-- C6 counterexample: the underscore is not a letter, digit, or whitespace,
yet step 2 (`re.sub(r'[^\w\s]', ' ', ...)`) keeps it, because Python's `\w`
includes the underscore; the output token `a_b` is not made of letters and
digits only. -/
theorem normalize_underscore_not_replaced :
    pySub (str "a_b") = str "a_b" ∧
    isLetterOrDigit 95 = false ∧ isSpaceChar 95 = false ∧
    normalize_location (str "a_b") = str "a_b" ∧
    pySplit (normalize_location (str "a_b")) = [str "a_b"] ∧ 95 ∈ str "a_b" := by
  decide

/-- C6 (amended): step 2 replaces exactly the characters that are neither
word characters (letters, digits, underscore) nor whitespace with a single
space; consequently every token of normalize's output consists only of word
characters. -/
theorem normalize_tokens_word_chars (s : Str) :
    (∀ l : Str, pySub l =
      l.map fun c => if isWordChar c = false ∧ isSpaceChar c = false then 32 else c) ∧
    ∀ t ∈ pySplit (normalize_location s), ∀ c ∈ t, isWordChar c = true := by
  constructor
  · intro l
    rw [pySub]
    apply List.map_congr_left
    intro c _
    cases hw : isWordChar c <;> cases hs : isSpaceChar c <;> simp [hw, hs]
  · rw [pySplit_normalize]
    exact fun t ht c hc => ((sortedTokens_clean s t ht).2 c hc).1

unseal List.merge List.mergeSort in
theorem normalize_tokens_word_chars_witness :
    str "a_b" ∈ pySplit (normalize_location (str "a_b")) ∧
    95 ∈ str "a_b" ∧ isWordChar 95 = true :=
  ⟨by decide, by decide,
    (normalize_tokens_word_chars (str "a_b")).2 (str "a_b") (by decide) 95 (by decide)⟩

/-! ## Claim C2: the matcher -/

/-- The loop body's first-match-wins chain holds exactly when the plain
three-way disjunction of claim C2 holds. -/
theorem matchesQuery_iff (q : Str) (b : GeoBucket) :
    matchesQuery q b = true ↔ specMatches q b := by
  rw [matchesQuery, specMatches]
  split_ifs with h1 h2 h3
  · simp [h1]
  · simp [h2]
  · simp [h3]
  · simp [h1, h2, h3, List.any_eq_true]

theorem matchesQuery_eq_decide (q : Str) (b : GeoBucket) :
    matchesQuery q b = decide (specMatches q b) := by
  cases hm : matchesQuery q b
  · symm
    rw [decide_eq_false_iff_not]
    intro hp
    rw [← matchesQuery_iff, hm] at hp
    exact Bool.false_ne_true hp
  · exact (decide_eq_true ((matchesQuery_iff q b).mp hm)).symm

/-- C2: if the query normalizes to the empty string the matcher returns no
buckets; otherwise it returns exactly the stored buckets satisfying the
three-step disjunction, each matching bucket once per stored row, in
store-iteration order (it is a filter of the store's bucket sequence). -/
theorem find_buckets_by_location_spec (db : Store) (location_query : Str) :
    (normalize_location location_query = [] →
      find_buckets_by_location db location_query = []) ∧
    (normalize_location location_query ≠ [] →
      find_buckets_by_location db location_query =
        db.buckets.filter fun b =>
          decide (specMatches (normalize_location location_query) b)) := by
  constructor
  · intro h
    rw [find_buckets_by_location, if_pos h]
  · intro h
    rw [find_buckets_by_location, if_neg h]
    exact List.filter_congr fun b _ => matchesQuery_eq_decide _ b

unseal List.merge List.mergeSort in
theorem find_buckets_by_location_spec_witness :
    normalize_location (str "Ajah") ≠ [] ∧
    find_buckets_by_location sampleStore (str "Ajah") =
      sampleStore.buckets.filter fun b =>
        decide (specMatches (normalize_location (str "Ajah")) b) :=
  ⟨by decide, (find_buckets_by_location_spec sampleStore (str "Ajah")).2 (by decide)⟩

/-! ## Claims C3 and C10: search composition -/

theorem filter_bucket_ids (db : Store) (bs : List GeoBucket) :
    (db.props.filter fun p => decide (p.geo_bucket_id ∈ bs.map fun b => b.id)) =
      db.props.filter fun p => decide (∃ b ∈ bs, p.geo_bucket_id = b.id) := by
  apply List.filter_congr
  intro p _
  apply decide_eq_decide.mpr
  rw [List.mem_map]
  constructor
  · rintro ⟨b, hb, he⟩
    exact ⟨b, hb, he.symm⟩
  · rintro ⟨b, hb, he⟩
    exact ⟨b, hb, he.symm⟩

/-- C3: when the matcher finds nothing, search returns no listings and an
absent primary bucket; otherwise it returns exactly the listings whose
bucket id belongs to a matched bucket, sorted by creation time descending,
together with the first matched bucket. -/
theorem search_properties_by_location_spec (db : Store) (location_query : Str) :
    (find_buckets_by_location db location_query = [] →
      search_properties_by_location db location_query = ([], none)) ∧
    (find_buckets_by_location db location_query ≠ [] →
      (search_properties_by_location db location_query).1.Perm
          (db.props.filter fun p =>
            decide (∃ b ∈ find_buckets_by_location db location_query,
              p.geo_bucket_id = b.id)) ∧
        List.Sorted (fun a b : Property => b.created_at ≤ a.created_at)
          (search_properties_by_location db location_query).1 ∧
        (search_properties_by_location db location_query).2 =
          (find_buckets_by_location db location_query).head?) := by
  constructor
  · intro h
    simp only [search_properties_by_location]
    rw [if_pos h]
  · intro h
    refine ⟨?_, ?_, ?_⟩
    · simp only [search_properties_by_location]
      rw [if_neg h, ← filter_bucket_ids db _]
      exact List.mergeSort_perm _ _
    · have hs : (List.mergeSort
          (db.props.filter fun p => decide (p.geo_bucket_id ∈
            (find_buckets_by_location db location_query).map fun b => b.id))
          (fun a b : Property => decide (b.created_at ≤ a.created_at))).Pairwise
          (fun a b : Property => decide (b.created_at ≤ a.created_at) = true) :=
        List.sorted_mergeSort
          (fun a b c h1 h2 => by
            simp only [decide_eq_true_eq] at h1 h2 ⊢
            omega)
          (fun a b => by
            simp only [Bool.or_eq_true, decide_eq_true_eq]
            omega)
          _
      simp only [search_properties_by_location]
      rw [if_neg h]
      exact hs.imp fun hab => of_decide_eq_true hab
    · simp only [search_properties_by_location]
      rw [if_neg h]

unseal List.merge List.mergeSort in
theorem search_properties_by_location_spec_witness :
    find_buckets_by_location sampleStore (str "Ajah") ≠ [] ∧
    ((search_properties_by_location sampleStore (str "Ajah")).1.Perm
        (sampleStore.props.filter fun p =>
          decide (∃ b ∈ find_buckets_by_location sampleStore (str "Ajah"),
            p.geo_bucket_id = b.id)) ∧
      List.Sorted (fun a b : Property => b.created_at ≤ a.created_at)
        (search_properties_by_location sampleStore (str "Ajah")).1 ∧
      (search_properties_by_location sampleStore (str "Ajah")).2 =
        (find_buckets_by_location sampleStore (str "Ajah")).head?) :=
  ⟨by decide, (search_properties_by_location_spec sampleStore (str "Ajah")).2 (by decide)⟩

/-- C10: if at least one bucket matches the query but no listing belongs to
any matched bucket, search returns an empty listing list together with a
present primary bucket (the first matched bucket); the primary bucket is
absent exactly when the matcher returns no buckets. -/
theorem search_properties_primary_bucket (db : Store) (location_query : Str) :
    (find_buckets_by_location db location_query ≠ [] →
      (∀ p ∈ db.props, ∀ b ∈ find_buckets_by_location db location_query,
        p.geo_bucket_id ≠ b.id) →
      (search_properties_by_location db location_query).1 = [] ∧
        (search_properties_by_location db location_query).2 =
          (find_buckets_by_location db location_query).head? ∧
        (search_properties_by_location db location_query).2 ≠ none) ∧
    ((search_properties_by_location db location_query).2 = none ↔
      find_buckets_by_location db location_query = []) := by
  constructor
  · intro h hnone
    refine ⟨?_, ?_, ?_⟩
    · simp only [search_properties_by_location]
      rw [if_neg h]
      have hf : (db.props.filter fun p => decide (p.geo_bucket_id ∈
          (find_buckets_by_location db location_query).map fun b => b.id)) = [] := by
        rw [List.filter_eq_nil_iff]
        intro p hp hdec
        rw [decide_eq_true_eq, List.mem_map] at hdec
        obtain ⟨b, hb, he⟩ := hdec
        exact hnone p hp b hb he.symm
      rw [hf]
      exact List.mergeSort_nil
    · simp only [search_properties_by_location]
      rw [if_neg h]
    · simp only [search_properties_by_location]
      rw [if_neg h]
      rcases hbs : find_buckets_by_location db location_query with _ | ⟨b, l⟩
      · exact absurd hbs h
      · simp
  · rcases hbs : find_buckets_by_location db location_query with _ | ⟨b, l⟩
    · simp [search_properties_by_location, hbs]
    · have hne : find_buckets_by_location db location_query ≠ [] := by
        rw [hbs]; exact List.cons_ne_nil b l
      simp only [search_properties_by_location]
      rw [if_neg hne, hbs]
      simp

unseal List.merge List.mergeSort in
theorem search_properties_primary_bucket_witness :
    find_buckets_by_location sampleStoreNoProps (str "Ajah") ≠ [] ∧
    ((search_properties_by_location sampleStoreNoProps (str "Ajah")).1 = [] ∧
      (search_properties_by_location sampleStoreNoProps (str "Ajah")).2 =
        (find_buckets_by_location sampleStoreNoProps (str "Ajah")).head? ∧
      (search_properties_by_location sampleStoreNoProps (str "Ajah")).2 ≠ none) :=
  ⟨by decide,
    (search_properties_primary_bucket sampleStoreNoProps (str "Ajah")).1
      (by decide) (by decide)⟩

/-! ## Claim C7: the grid keyer -/

unseal Rat.mul Rat.inv Rat.add Rat.sub in
/-- C7: with the default grid size 0.005, `gridKey(6.4698, 3.6285)` is
exactly `("6.470_3.630", 6.470, 3.630)`; in general the cell values are
`round(lat/g)*g` and `round(lng/g)*g`, each formatted to exactly three
decimal places and joined with an underscore. -/
theorem compute_bucket_key_spec :
    compute_bucket_key (64698/10000) (36285/10000) =
      (str "6.470_3.630", 647/100, 363/100) ∧
    ∀ lat lng : ℚ, compute_bucket_key lat lng =
      (format3 (pyRound (lat / GEO_BUCKET_GRID_SIZE) * GEO_BUCKET_GRID_SIZE) ++ [95] ++
        format3 (pyRound (lng / GEO_BUCKET_GRID_SIZE) * GEO_BUCKET_GRID_SIZE),
       pyRound (lat / GEO_BUCKET_GRID_SIZE) * GEO_BUCKET_GRID_SIZE,
       pyRound (lng / GEO_BUCKET_GRID_SIZE) * GEO_BUCKET_GRID_SIZE) :=
  ⟨by decide, fun _ _ => rfl⟩

/-! ## Claim C8: the existing-bucket path of get-or-create -/

/-- C8: when `get_or_create_bucket` finds an existing bucket for the grid
key: with an empty or already-known normalized name the bucket and the
store are returned unchanged (nothing committed); otherwise the only change
is that the normalized name is appended at the end of `aliases`; the key,
canonical name, centroid coordinates and count are unchanged in both
cases. -/
theorem get_or_create_bucket_existing_frame (db : Store) (lat lng : ℚ)
    (location_name : Str) (bucket : GeoBucket)
    (hfind : db.buckets.find?
        (fun b => decide (b.bucket_key = (compute_bucket_key lat lng).1)) = some bucket) :
    (normalize_location location_name = [] ∨
        normalize_location location_name ∈ bucket.aliases →
      get_or_create_bucket db lat lng location_name = (bucket, db)) ∧
    (normalize_location location_name ≠ [] →
      normalize_location location_name ∉ bucket.aliases →
      get_or_create_bucket db lat lng location_name =
        ({ bucket with aliases := bucket.aliases ++ [normalize_location location_name] },
         { db with buckets := db.buckets.map fun b =>
             if b.id = bucket.id then
               { bucket with aliases := bucket.aliases ++ [normalize_location location_name] }
             else b })) ∧
    ((get_or_create_bucket db lat lng location_name).1.bucket_key = bucket.bucket_key ∧
     (get_or_create_bucket db lat lng location_name).1.canonical_name = bucket.canonical_name ∧
     (get_or_create_bucket db lat lng location_name).1.centroid_lat = bucket.centroid_lat ∧
     (get_or_create_bucket db lat lng location_name).1.centroid_lng = bucket.centroid_lng ∧
     (get_or_create_bucket db lat lng location_name).1.property_count = bucket.property_count ∧
     (get_or_create_bucket db lat lng location_name).2.props = db.props ∧
     (get_or_create_bucket db lat lng location_name).2.nextBucketId = db.nextBucketId ∧
     (get_or_create_bucket db lat lng location_name).2.nextPropId = db.nextPropId) := by
  refine ⟨?_, ?_, ?_⟩
  · intro hor
    simp only [get_or_create_bucket, hfind]
    rw [if_neg (fun hand => hor.elim (fun h => hand.1 h) (fun h => hand.2 h))]
  · intro h1 h2
    simp only [get_or_create_bucket, hfind]
    rw [if_pos ⟨h1, h2⟩]
  · by_cases hc : normalize_location location_name ≠ [] ∧
        normalize_location location_name ∉ bucket.aliases
    · simp only [get_or_create_bucket, hfind]
      rw [if_pos hc]
      exact ⟨rfl, rfl, rfl, rfl, rfl, rfl, rfl, rfl⟩
    · simp only [get_or_create_bucket, hfind]
      rw [if_neg hc]
      exact ⟨rfl, rfl, rfl, rfl, rfl, rfl, rfl, rfl⟩

unseal Rat.mul Rat.inv Rat.add Rat.sub List.merge List.mergeSort in
theorem get_or_create_bucket_existing_frame_witness :
    sampleStore.buckets.find?
        (fun b => decide (b.bucket_key =
          (compute_bucket_key (64698/10000) (36285/10000)).1)) = some sampleBucket ∧
    get_or_create_bucket sampleStore (64698/10000) (36285/10000) (str "Ajah") =
      (sampleBucket, sampleStore) :=
  ⟨by decide,
    (get_or_create_bucket_existing_frame sampleStore (64698/10000) (36285/10000)
      (str "Ajah") sampleBucket (by decide)).1 (Or.inr (by decide))⟩

/-! ## Claim C9: the creation race -/

unseal Rat.mul Rat.inv Rat.add Rat.sub List.merge List.mergeSort in
/-- C9 (code bug): under a creation race — the lookup sees a snapshot
without the bucket key while a concurrent writer has already committed a
bucket with that key — the insert's unique-key conflict propagates to the
caller as a failure; the code has no internal re-lookup retry. -/
theorem get_or_create_bucket_race_error :
    get_or_create_bucket_race emptyStore sampleStore (64698/10000) (36285/10000)
      (str "Sangotedo") = .error () := by decide

/-! ## Claim C1: the member-count invariant -/

theorem mem_eq_of_nodup_map {α β : Type} {f : α → β} {l : List α}
    (hnd : (l.map f).Nodup) {a b : α} (ha : a ∈ l) (hb : b ∈ l) (hf : f a = f b) :
    a = b := by
  induction l with
  | nil => simp at ha
  | cons x xs ih =>
    rw [List.map_cons, List.nodup_cons] at hnd
    rcases List.mem_cons.mp ha with rfl | ha2
    · rcases List.mem_cons.mp hb with rfl | hb2
      · rfl
      · exact absurd (by rw [hf]; exact List.mem_map_of_mem f hb2) hnd.1
    · rcases List.mem_cons.mp hb with rfl | hb2
      · exact absurd (by rw [← hf]; exact List.mem_map_of_mem f ha2) hnd.1
      · exact ih hnd.2 ha2 hb2

/-- Incrementing the count of an existing bucket row while inserting one
property row that references it preserves well-formedness. -/
theorem WF_bucket_inc {db s2 : Store} {bucket B : GeoBucket} {pr : Property}
    (h : WF db) (hmem : bucket ∈ db.buckets)
    (hid : B.id = bucket.id) (hcount : B.property_count = bucket.property_count)
    (hgeo : pr.geo_bucket_id = B.id)
    (hb2 : s2.buckets = db.buckets.map fun b =>
      if b.id = B.id then { B with property_count := B.property_count + 1 } else b)
    (hp2 : s2.props = db.props ++ [pr])
    (hn2 : s2.nextBucketId = db.nextBucketId) :
    WF s2 := by
  obtain ⟨hnd, hblt, hplt, hcnt⟩ := h
  refine ⟨?_, ?_, ?_, ?_⟩
  · rw [hb2, List.map_map]
    have he : db.buckets.map ((fun b => b.id) ∘ fun b =>
        if b.id = B.id then { B with property_count := B.property_count + 1 } else b) =
        db.buckets.map fun b => b.id := by
      apply List.map_congr_left
      intro b hb
      by_cases h2 : b.id = B.id
      · simp only [Function.comp_apply, if_pos h2]
        exact h2.symm
      · simp only [Function.comp_apply, if_neg h2]
    rw [he]
    exact hnd
  · intro b2 hmem2
    rw [hb2, List.mem_map] at hmem2
    obtain ⟨b, hb, rfl⟩ := hmem2
    rw [hn2]
    by_cases h2 : b.id = B.id
    · rw [if_pos h2]
      show B.id < db.nextBucketId
      rw [hid]
      exact hblt bucket hmem
    · rw [if_neg h2]
      exact hblt b hb
  · intro p hp
    rw [hp2] at hp
    rw [hn2]
    rcases List.mem_append.mp hp with hp1 | hp1
    · exact hplt p hp1
    · rw [List.mem_singleton] at hp1
      subst hp1
      rw [hgeo, hid]
      exact hblt bucket hmem
  · intro b2 hmem2
    rw [hb2, List.mem_map] at hmem2
    obtain ⟨b, hb, rfl⟩ := hmem2
    by_cases h2 : b.id = B.id
    · rw [if_pos h2, hp2]
      have hid2 : ({ B with property_count := B.property_count + 1 } : GeoBucket).id = B.id := rfl
      have hcnt2 : ({ B with property_count := B.property_count + 1 } : GeoBucket).property_count
          = B.property_count + 1 := rfl
      rw [hid2, hcnt2, List.filter_append]
      have hft : List.filter (fun p => decide (p.geo_bucket_id = B.id)) [pr] = [pr] := by
        simp [hgeo]
      rw [hft, List.length_append, List.length_singleton]
      rw [hcount, hcnt bucket hmem, hid]
    · rw [if_neg h2, hp2]
      rw [List.filter_append]
      have hfe : List.filter (fun p => decide (p.geo_bucket_id = b.id)) [pr] = [] := by
        simp only [List.filter_cons, List.filter_nil]
        rw [if_neg]
        simp only [decide_eq_true_eq, hgeo]
        exact fun hcontra => h2 hcontra.symm
      rw [hfe, List.append_nil]
      exact hcnt b hb

/-- Appending a fresh bucket row (with one referencing property row and the
count already at one) preserves well-formedness. -/
theorem WF_bucket_new {db s2 : Store} {B : GeoBucket} {pr : Property}
    (h : WF db) (hBid : B.id = db.nextBucketId) (hBcnt : B.property_count = 1)
    (hgeo : pr.geo_bucket_id = B.id)
    (hb2 : s2.buckets = db.buckets ++ [B])
    (hp2 : s2.props = db.props ++ [pr])
    (hn2 : s2.nextBucketId = db.nextBucketId + 1) :
    WF s2 := by
  obtain ⟨hnd, hblt, hplt, hcnt⟩ := h
  have hnotmem : B.id ∉ db.buckets.map fun b => b.id := by
    intro hmem
    rw [List.mem_map] at hmem
    obtain ⟨b, hb, hbid⟩ := hmem
    have := hblt b hb
    omega
  refine ⟨?_, ?_, ?_, ?_⟩
  · rw [hb2, List.map_append, List.map_singleton]
    exact (List.perm_append_singleton _ _).nodup_iff.mpr (List.nodup_cons.mpr ⟨hnotmem, hnd⟩)
  · intro b2 hmem2
    rw [hb2] at hmem2
    rw [hn2]
    rcases List.mem_append.mp hmem2 with h1 | h1
    · have := hblt b2 h1
      omega
    · rw [List.mem_singleton] at h1
      subst h1
      omega
  · intro p hp
    rw [hp2] at hp
    rw [hn2]
    rcases List.mem_append.mp hp with h1 | h1
    · have := hplt p h1
      omega
    · rw [List.mem_singleton] at h1
      subst h1
      rw [hgeo]
      omega
  · intro b2 hmem2
    rw [hb2] at hmem2
    rw [hp2]
    rcases List.mem_append.mp hmem2 with h1 | h1
    · rw [List.filter_append]
      have hfe : List.filter (fun p => decide (p.geo_bucket_id = b2.id)) [pr] = [] := by
        simp only [List.filter_cons, List.filter_nil]
        rw [if_neg]
        simp only [decide_eq_true_eq, hgeo, hBid]
        have := hblt b2 h1
        omega
      rw [hfe, List.append_nil]
      exact hcnt b2 h1
    · rw [List.mem_singleton] at h1
      rw [h1, List.filter_append]
      have hfe : List.filter (fun p => decide (p.geo_bucket_id = B.id)) db.props = [] := by
        rw [List.filter_eq_nil_iff]
        intro p hp hdec
        rw [decide_eq_true_eq] at hdec
        have := hplt p hp
        omega
      have hft : List.filter (fun p => decide (p.geo_bucket_id = B.id)) [pr] = [pr] := by
        simp [hgeo]
      rw [hfe, hft, List.nil_append, List.length_singleton, hBcnt]

/-- Field-level description of one `create_property` step in terms of the
`get_or_create_bucket` result. -/
theorem applyCreate_fields (db : Store) (r : CreateReq) :
    (applyCreate db r).buckets =
      (get_or_create_bucket db r.lat r.lng r.location_name).2.buckets.map (fun b =>
        if b.id = (get_or_create_bucket db r.lat r.lng r.location_name).1.id
        then { (get_or_create_bucket db r.lat r.lng r.location_name).1 with
               property_count :=
                 (get_or_create_bucket db r.lat r.lng r.location_name).1.property_count + 1 }
        else b) ∧
    (applyCreate db r).props =
      (get_or_create_bucket db r.lat r.lng r.location_name).2.props ++
        [{ id := (get_or_create_bucket db r.lat r.lng r.location_name).2.nextPropId
           geo_bucket_id := (get_or_create_bucket db r.lat r.lng r.location_name).1.id
           title := r.title
           location_name := r.location_name
           lat := r.lat
           lng := r.lng
           price := r.price
           bedrooms := r.bedrooms
           bathrooms := r.bathrooms
           created_at := r.now }] ∧
    (applyCreate db r).nextBucketId =
      (get_or_create_bucket db r.lat r.lng r.location_name).2.nextBucketId ∧
    (applyCreate db r).nextPropId =
      (get_or_create_bucket db r.lat r.lng r.location_name).2.nextPropId + 1 :=
  ⟨rfl, rfl, rfl, rfl⟩

/-- Field-level description of the creation branch of
`get_or_create_bucket`. -/
theorem get_or_create_none_fields {db : Store} {lat lng : ℚ} (name : Str)
    (hfind : db.buckets.find?
      (fun b => decide (b.bucket_key = (compute_bucket_key lat lng).1)) = none) :
    (get_or_create_bucket db lat lng name).1.id = db.nextBucketId ∧
    (get_or_create_bucket db lat lng name).1.property_count = 0 ∧
    (get_or_create_bucket db lat lng name).1.bucket_key = (compute_bucket_key lat lng).1 ∧
    (get_or_create_bucket db lat lng name).2.buckets =
      db.buckets ++ [(get_or_create_bucket db lat lng name).1] ∧
    (get_or_create_bucket db lat lng name).2.props = db.props ∧
    (get_or_create_bucket db lat lng name).2.nextBucketId = db.nextBucketId + 1 ∧
    (get_or_create_bucket db lat lng name).2.nextPropId = db.nextPropId := by
  simp only [get_or_create_bucket, hfind]
  exact ⟨trivial, trivial, trivial, trivial, trivial, trivial, trivial⟩

/-- Field-level description of the existing-bucket branch of
`get_or_create_bucket` (under distinct bucket ids). -/
theorem get_or_create_found_fields {db : Store} {lat lng : ℚ} (name : Str)
    {bucket : GeoBucket}
    (hnd : (db.buckets.map fun b => b.id).Nodup)
    (hfind : db.buckets.find?
      (fun b => decide (b.bucket_key = (compute_bucket_key lat lng).1)) = some bucket) :
    (get_or_create_bucket db lat lng name).1.id = bucket.id ∧
    (get_or_create_bucket db lat lng name).1.property_count = bucket.property_count ∧
    (get_or_create_bucket db lat lng name).1.bucket_key = bucket.bucket_key ∧
    (get_or_create_bucket db lat lng name).2.buckets =
      db.buckets.map (fun b =>
        if b.id = (get_or_create_bucket db lat lng name).1.id
        then (get_or_create_bucket db lat lng name).1 else b) ∧
    (get_or_create_bucket db lat lng name).2.props = db.props ∧
    (get_or_create_bucket db lat lng name).2.nextBucketId = db.nextBucketId ∧
    (get_or_create_bucket db lat lng name).2.nextPropId = db.nextPropId := by
  have hmem := List.mem_of_find?_eq_some hfind
  simp only [get_or_create_bucket, hfind]
  by_cases hc : normalize_location name ≠ [] ∧ normalize_location name ∉ bucket.aliases
  · rw [if_pos hc]
    exact ⟨rfl, rfl, rfl, rfl, rfl, rfl, rfl⟩
  · rw [if_neg hc]
    refine ⟨rfl, rfl, rfl, ?_, rfl, rfl, rfl⟩
    have he : db.buckets.map (fun b => if b.id = bucket.id then bucket else b) =
        db.buckets.map id :=
      List.map_congr_left fun b hb => by
        by_cases h2 : b.id = bucket.id
        · rw [if_pos h2]
          exact (mem_eq_of_nodup_map hnd hb hmem h2).symm
        · rw [if_neg h2]
          rfl
    rw [he, List.map_id]

/-- One `create_property` call preserves well-formedness: in particular the
per-bucket counter invariant is maintained. -/
theorem WF_applyCreate (db : Store) (r : CreateReq) (h : WF db) : WF (applyCreate db r) := by
  obtain ⟨hf1, hf2, hf3, _⟩ := applyCreate_fields db r
  rcases hfind : db.buckets.find?
      (fun b => decide (b.bucket_key = (compute_bucket_key r.lat r.lng).1)) with _ | bucket
  · obtain ⟨hg1, hg2, _, hg4, hg5, hg6, _⟩ := get_or_create_none_fields r.location_name hfind
    have hblt := h.2.1
    have hb2 : (applyCreate db r).buckets =
        db.buckets ++ [{ (get_or_create_bucket db r.lat r.lng r.location_name).1 with
          property_count :=
            (get_or_create_bucket db r.lat r.lng r.location_name).1.property_count + 1 }] := by
      rw [hf1, hg4, List.map_append, List.map_singleton, if_pos rfl]
      congr 1
      have he : db.buckets.map (fun b =>
          if b.id = (get_or_create_bucket db r.lat r.lng r.location_name).1.id
          then { (get_or_create_bucket db r.lat r.lng r.location_name).1 with
                 property_count :=
                   (get_or_create_bucket db r.lat r.lng r.location_name).1.property_count + 1 }
          else b) = db.buckets.map id :=
        List.map_congr_left fun b hb => by
          rw [if_neg]
          · rfl
          · rw [hg1]
            have := hblt b hb
            omega
      rw [he, List.map_id]
    have hp2 := hf2
    rw [hg5] at hp2
    have hn2 := hf3
    rw [hg6] at hn2
    refine WF_bucket_new h ?_ ?_ ?_ hb2 hp2 hn2
    · rw [hg1]
    · rw [hg2]
    · rfl
  · obtain ⟨hg1, hg2, _, hg4, hg5, hg6, _⟩ := get_or_create_found_fields r.location_name h.1 hfind
    have hmem := List.mem_of_find?_eq_some hfind
    have hb2 : (applyCreate db r).buckets = db.buckets.map (fun b =>
        if b.id = (get_or_create_bucket db r.lat r.lng r.location_name).1.id
        then { (get_or_create_bucket db r.lat r.lng r.location_name).1 with
               property_count :=
                 (get_or_create_bucket db r.lat r.lng r.location_name).1.property_count + 1 }
        else b) := by
      rw [hf1, hg4, List.map_map]
      apply List.map_congr_left
      intro b hb
      by_cases h2 : b.id = (get_or_create_bucket db r.lat r.lng r.location_name).1.id
      · simp only [Function.comp_apply, if_pos h2, eq_self_iff_true, if_true]
      · simp only [Function.comp_apply, if_neg h2]
    have hp2 := hf2
    rw [hg5] at hp2
    have hn2 := hf3
    rw [hg6] at hn2
    refine WF_bucket_inc h hmem ?_ ?_ ?_ hb2 hp2 hn2
    · exact hg1
    · exact hg2
    · rfl

/-- Creating into the empty store yields one bucket with one property. -/
theorem applyCreate_empty (r : CreateReq) :
    ∃ b, (applyCreate emptyStore r).buckets = [b] ∧
      b.bucket_key = (compute_bucket_key r.lat r.lng).1 ∧
      b.property_count = 1 ∧
      (applyCreate emptyStore r).props.length = 1 := by
  obtain ⟨hf1, hf2, _, _⟩ := applyCreate_fields emptyStore r
  have hfind : emptyStore.buckets.find?
      (fun b => decide (b.bucket_key = (compute_bucket_key r.lat r.lng).1)) = none := rfl
  obtain ⟨hg1, hg2, hg3, hg4, hg5, _, _⟩ := get_or_create_none_fields r.location_name hfind
  refine ⟨{ (get_or_create_bucket emptyStore r.lat r.lng r.location_name).1 with
      property_count :=
        (get_or_create_bucket emptyStore r.lat r.lng r.location_name).1.property_count + 1 },
    ?_, ?_, ?_, ?_⟩
  · rw [hf1, hg4, show emptyStore.buckets = [] from rfl, List.nil_append,
      List.map_singleton, if_pos rfl]
  · exact hg3
  · show (get_or_create_bucket emptyStore r.lat r.lng r.location_name).1.property_count + 1 = 1
    rw [hg2]
  · rw [hf2, hg5]
    rfl

/-- Creating into a single-bucket store whose bucket covers the request's
grid cell increments that bucket's count and appends one property. -/
theorem applyCreate_singleton {s : Store} {b : GeoBucket} {K : Str} (r : CreateReq)
    (hb : s.buckets = [b]) (hkey : b.bucket_key = K)
    (hrk : (compute_bucket_key r.lat r.lng).1 = K) :
    ∃ b2, (applyCreate s r).buckets = [b2] ∧ b2.bucket_key = K ∧
      b2.property_count = b.property_count + 1 ∧
      (applyCreate s r).props.length = s.props.length + 1 := by
  obtain ⟨hf1, hf2, _, _⟩ := applyCreate_fields s r
  have hfind : s.buckets.find?
      (fun x => decide (x.bucket_key = (compute_bucket_key r.lat r.lng).1)) = some b := by
    rw [hb]
    simp [hkey, hrk]
  have hnd : (s.buckets.map fun x => x.id).Nodup := by
    rw [hb]
    simp
  obtain ⟨hg1, hg2, hg3, hg4, hg5, _, _⟩ := get_or_create_found_fields r.location_name hnd hfind
  refine ⟨{ (get_or_create_bucket s r.lat r.lng r.location_name).1 with
      property_count :=
        (get_or_create_bucket s r.lat r.lng r.location_name).1.property_count + 1 },
    ?_, ?_, ?_, ?_⟩
  · rw [hf1, hg4, hb, List.map_singleton, if_pos hg1.symm, List.map_singleton, if_pos rfl]
  · exact hg3.trans hkey
  · show (get_or_create_bucket s r.lat r.lng r.location_name).1.property_count + 1 =
      b.property_count + 1
    rw [hg2]
  · rw [hf2, hg5, List.length_append]
    rfl

/-- Folding same-cell creates over a single-bucket store adds the length of
the request list to the bucket's count and to the property count. -/
theorem foldCreates_singleton {K : Str} (rs : List CreateReq) :
    ∀ {s : Store} {b : GeoBucket}, s.buckets = [b] → b.bucket_key = K →
      (∀ r ∈ rs, (compute_bucket_key r.lat r.lng).1 = K) →
      ∃ b2, (foldCreates s rs).buckets = [b2] ∧ b2.bucket_key = K ∧
        b2.property_count = b.property_count + rs.length ∧
        (foldCreates s rs).props.length = s.props.length + rs.length := by
  induction rs with
  | nil =>
    intro s b h1 h2 _
    exact ⟨b, h1, h2, rfl, rfl⟩
  | cons r rs2 ih =>
    intro s b h1 h2 hall
    obtain ⟨b1, ha1, ha2, ha3, ha4⟩ :=
      applyCreate_singleton r h1 h2 (hall r (List.mem_cons_self r rs2))
    obtain ⟨b2, g1, g2, g3, g4⟩ :=
      ih ha1 ha2 (fun x hx => hall x (List.mem_cons_of_mem r hx))
    rw [foldCreates] at g1 g4
    refine ⟨b2, ?_, g2, ?_, ?_⟩
    · rw [foldCreates, List.foldl_cons]
      exact g1
    · rw [g3, ha3, List.length_cons]
      omega
    · rw [foldCreates, List.foldl_cons, g4, ha4, List.length_cons]
      omega

/-- Well-formedness is preserved by any sequence of creates. -/
theorem WF_foldCreates (rs : List CreateReq) :
    ∀ db : Store, WF db → WF (foldCreates db rs) := by
  induction rs with
  | nil => exact fun db h => h
  | cons r rs2 ih =>
    intro db h
    rw [foldCreates, List.foldl_cons]
    exact ih _ (WF_applyCreate db r h)

/-- C1: the member-count invariant.  The empty store is well-formed, every
`create_property` step preserves well-formedness (in particular each
bucket's `property_count` always equals the number of property rows whose
`geo_bucket_id` references it), and after N creates whose coordinates all
map to one grid cell the single resulting bucket has `property_count = N`
with N property rows stored. -/
theorem create_property_member_count :
    WF emptyStore ∧
    (∀ (db : Store) (r : CreateReq), WF db → WF (applyCreate db r)) ∧
    (∀ (rs : List CreateReq) (K : Str), rs ≠ [] →
      (∀ r ∈ rs, (compute_bucket_key r.lat r.lng).1 = K) →
      ∃ b, (foldCreates emptyStore rs).buckets = [b] ∧ b.bucket_key = K ∧
        b.property_count = rs.length ∧
        (foldCreates emptyStore rs).props.length = rs.length ∧
        countsOk (foldCreates emptyStore rs)) := by
  have hWFe : WF emptyStore := by decide
  refine ⟨hWFe, WF_applyCreate, ?_⟩
  intro rs K hne hall
  rcases rs with _ | ⟨r, rs2⟩
  · exact absurd rfl hne
  · obtain ⟨b0, h1, h2, h3, h4⟩ := applyCreate_empty r
    have h2K : b0.bucket_key = K := h2.trans (hall r (List.mem_cons_self r rs2))
    obtain ⟨b2, g1, g2, g3, g4⟩ :=
      foldCreates_singleton rs2 h1 h2K (fun x hx => hall x (List.mem_cons_of_mem r hx))
    rw [foldCreates] at g1 g4
    refine ⟨b2, ?_, g2, ?_, ?_, ?_⟩
    · rw [foldCreates, List.foldl_cons]
      exact g1
    · rw [g3, h3, List.length_cons]
      omega
    · rw [foldCreates, List.foldl_cons, g4, h4, List.length_cons]
      omega
    · exact (WF_foldCreates (r :: rs2) emptyStore hWFe).2.2.2

unseal Rat.mul Rat.inv Rat.add Rat.sub List.merge List.mergeSort in
theorem create_property_member_count_witness :
    WF sampleStore ∧ WF (applyCreate sampleStore sampleReq) ∧
    (∃ b, (foldCreates emptyStore [sampleReq]).buckets = [b] ∧
      b.bucket_key = str "6.470_3.630" ∧
      b.property_count = [sampleReq].length ∧
      (foldCreates emptyStore [sampleReq]).props.length = [sampleReq].length ∧
      countsOk (foldCreates emptyStore [sampleReq])) :=
  ⟨by decide,
   create_property_member_count.2.1 sampleStore sampleReq (by decide),
   create_property_member_count.2.2 [sampleReq] (str "6.470_3.630")
     (by decide) (by decide)⟩

end GeoBuckets
